import Mathlib

/-!
Verification of the route consistency checker (scripts/route_check.py).

The script is embedded shallowly:

* Python strings are `List Char` (`Key`); `str.lower` is modelled by
  `lowerChar`/`lowerStr` (the keys handled by the script are ASCII, where
  the Python `lower` is exactly the ASCII mapping).
* Python exceptions are modelled with `Except PyErr`; a function that can
  raise returns `Except PyErr α`, and an uncaught exception propagates as
  `Except.error` (the script contains no try/except).
* The wall clock (`time.time()`, floats in seconds) is modelled as an integer
  count of milliseconds; `int(x)` truncation of a float number of seconds
  becomes `msToSecTrunc` on a millisecond count.
* The external collaborators (the two state stores, the subscription feed and
  the `ipaddress` library) are modelled by an `Env` record holding the values
  each read produces, and by an address parser `ip_address` modelled from the
  the "standard IP addressing rules" of the spec.
-/

/-- Keys and other Python strings are lists of characters. -/
abbrev Key := List Char

/-- Exceptions the modelled code can raise. -/
inductive PyErr where
  /-- `ValueError`, raised by `ipaddress.ip_address` on a malformed address. -/
  | valueError : PyErr
  /-- `IndexError`, raised by an out-of-range `list[i]` access. -/
  | indexError : PyErr
  /-- `KeyError`, raised by a missing dict key access. -/
  | keyError : PyErr
  /-- `UnboundLocalError`, raised on reading a never-assigned local variable. -/
  | unboundLocal : PyErr
  /-- An infrastructure failure raised by the state-store client. -/
  | storeError : PyErr
deriving DecidableEq, Repr

/-- Model of Python `str.lower` on one character (exact on ASCII, which is the
only alphabet route keys use): uppercase A-Z maps to a-z, all else is fixed. -/
def lowerChar (c : Char) : Char :=
  if 65 ≤ c.toNat ∧ c.toNat ≤ 90 then Char.ofNat (c.toNat + 32) else c

/-- Model of Python `str.lower` on a whole string. -/
def lowerStr (s : Key) : Key := s.map lowerChar

/-- Model of Python `str.split(sep)`: splitting the empty string gives `[""]`,
and every separator occurrence opens a new group. -/
def splitOnChar (sep : Char) : List Char → List (List Char)
  | [] => [[]]
  | c :: cs =>
    match splitOnChar sep cs with
    | [] => [[]]
    | g :: gs => if c = sep then [] :: g :: gs else (c :: g) :: gs

/-- Model of Python `re.split(sep, s, maxsplit=1)`: `none` when the separator
does not occur (the split returns the whole string as its only part), else the
parts before and after the first occurrence. -/
def splitFirst (sep : Char) : List Char → Option (List Char × List Char)
  | [] => none
  | c :: cs =>
    if c = sep then some ([], cs)
    else
      match splitFirst sep cs with
      | none => none
      | some (l, r) => some (c :: l, r)

/-- Python string comparison `s1 < s2`: lexicographic order on code points. -/
def keyLt : Key → Key → Bool
  | [], [] => false
  | [], _ :: _ => true
  | _ :: _, [] => false
  | c :: cs, d :: ds => if c = d then keyLt cs ds else decide (c < d)

/-- Python string comparison `s1 <= s2`. -/
def keyLe (a b : Key) : Bool := ! keyLt b a

/-- Insertion step used to model Python `sorted`. -/
def insertSorted (x : Key) : List Key → List Key
  | [] => [x]
  | y :: ys => if keyLe x y then x :: y :: ys else y :: insertSorted x ys

/-- Model of Python `sorted` on a list of strings (ascending insertion sort;
`sorted` is a stable ascending sort, and only the resulting order matters to
the script). -/
def sortKeys (l : List Key) : List Key := l.foldr insertSorted []

/-- Truncation of a millisecond count to a whole number of seconds, rounding
toward zero: this is `int(x)` applied to the float number of seconds `d/1000`. -/
def msToSecTrunc (d : ℤ) : ℤ :=
  if 0 ≤ d then ((d.toNat / 1000 : ℕ) : ℤ) else -(((-d).toNat / 1000 : ℕ) : ℤ)

theorem toNat_ofNat_of_valid {n : ℕ} (h : n < 55296) : (Char.ofNat n).toNat = n := by
  rw [Char.ofNat, dif_pos (Or.inl h)]
  rfl

theorem lowerChar_toNat (c : Char) :
    (lowerChar c).toNat =
      if 65 ≤ c.toNat ∧ c.toNat ≤ 90 then c.toNat + 32 else c.toNat := by
  unfold lowerChar
  split
  · next h => exact toNat_ofNat_of_valid (by omega)
  · rfl

theorem lowerChar_of_not_upper {c : Char} (h : ¬(65 ≤ c.toNat ∧ c.toNat ≤ 90)) :
    lowerChar c = c := by
  unfold lowerChar
  exact if_neg h

theorem lowerChar_idem (c : Char) : lowerChar (lowerChar c) = lowerChar c := by
  by_cases h : 65 ≤ c.toNat ∧ c.toNat ≤ 90
  · have h1 : (lowerChar c).toNat = c.toNat + 32 := by rw [lowerChar_toNat, if_pos h]
    exact lowerChar_of_not_upper (by omega)
  · rw [lowerChar_of_not_upper h, lowerChar_of_not_upper h]

theorem lowerChar_of_toNat_lt {c : Char} (h : c.toNat < 65) : lowerChar c = c := by
  unfold lowerChar
  exact if_neg (by omega)

theorem lowerChar_eq_iff_of_lt {c d : Char} (hd : d.toNat < 65) :
    lowerChar c = d ↔ c = d := by
  constructor
  · intro h
    by_cases hc : 65 ≤ c.toNat ∧ c.toNat ≤ 90
    · have := congrArg Char.toNat h
      rw [lowerChar_toNat, if_pos hc] at this
      omega
    · unfold lowerChar at h
      rwa [if_neg hc] at h
  · intro h
    subst h
    exact lowerChar_of_toNat_lt hd

theorem mem_lowerStr_iff {s : Key} {d : Char} (hd : d.toNat < 65) :
    d ∈ lowerStr s ↔ d ∈ s := by
  unfold lowerStr
  rw [List.mem_map]
  constructor
  · rintro ⟨c, hc, he⟩
    rwa [(lowerChar_eq_iff_of_lt hd).mp he] at hc
  · intro h
    exact ⟨d, h, lowerChar_of_toNat_lt hd⟩

theorem lowerStr_append (s t : Key) : lowerStr (s ++ t) = lowerStr s ++ lowerStr t :=
  List.map_append lowerChar s t

theorem lowerStr_idem (s : Key) : lowerStr (lowerStr s) = lowerStr s := by
  induction s with
  | nil => rfl
  | cons c cs ih =>
    simp only [lowerStr, List.map_cons] at *
    rw [lowerChar_idem]
    exact congrArg _ (by simpa [lowerStr] using ih)

theorem splitOnChar_ne_nil (sep : Char) (s : List Char) : splitOnChar sep s ≠ [] := by
  cases s with
  | nil => simp [splitOnChar]
  | cons c cs =>
    simp only [splitOnChar]
    split
    · simp
    · split <;> simp

theorem splitOnChar_of_not_mem {sep : Char} {s : List Char} (h : sep ∉ s) :
    splitOnChar sep s = [s] := by
  induction s with
  | nil => rfl
  | cons c cs ih =>
    have hc : c ≠ sep := fun he => h (he ▸ List.mem_cons_self c cs)
    have hcs : sep ∉ cs := fun hm => h (List.mem_cons_of_mem c hm)
    simp only [splitOnChar, ih hcs]
    rw [if_neg hc]

theorem splitOnChar_length_ge_two {sep : Char} {s : List Char} (h : sep ∈ s) :
    2 ≤ (splitOnChar sep s).length := by
  induction s with
  | nil => cases h
  | cons c cs ih =>
    obtain ⟨g, gs, hcs⟩ : ∃ g gs, splitOnChar sep cs = g :: gs := by
      cases h2 : splitOnChar sep cs with
      | nil => exact absurd h2 (splitOnChar_ne_nil sep cs)
      | cons g gs => exact ⟨g, gs, rfl⟩
    simp only [splitOnChar, hcs]
    by_cases hc : c = sep
    · rw [if_pos hc]
      simp
    · rw [if_neg hc]
      have hm : sep ∈ cs := by
        rcases List.mem_cons.mp h with h1 | h1
        · exact absurd h1.symm hc
        · exact h1
      have h3 := ih hm
      rw [hcs] at h3
      simpa using h3

/-- Modelled from the spec: parsed addresses of the external `ipaddress`
collaborator ("standard IP addressing rules", spec 4.1); the library itself is
not part of this repository. An address is an IPv4 dotted quad or an IPv6
group list (8 groups after expanding one `::` compression). -/
inductive IPAddr where
  | v4 (octets : List ℕ) : IPAddr
  | v6 (groups : List ℕ) : IPAddr
deriving DecidableEq, Repr

/-- Modelled from the spec: one decimal octet of a dotted quad, 0-255, no
leading zeros (as the Python library enforces). -/
def parseOctet (p : List Char) : Option ℕ :=
  if p.length = 0 ∨ 3 < p.length then none
  else if p.headI = '0' ∧ p ≠ ['0'] then none
  else
    match p.foldlM (fun acc c =>
        if 48 ≤ c.toNat ∧ c.toNat ≤ 57 then some (acc * 10 + (c.toNat - 48))
        else none) 0 with
    | none => none
    | some v => if v ≤ 255 then some v else none

/-- Modelled from the spec: IPv4 parsing, exactly four octets. -/
def parse_ipv4 (s : List Char) : Option (List ℕ) :=
  let parts := splitOnChar '.' s
  if parts.length = 4 then parts.mapM parseOctet else none

/-- Modelled from the spec: one IPv6 group, 1-4 hex digits. -/
def parseHexGroup (g : List Char) : Option ℕ :=
  if g.length = 0 ∨ 4 < g.length then none
  else g.foldlM (fun acc c =>
    if 48 ≤ c.toNat ∧ c.toNat ≤ 57 then some (acc * 16 + (c.toNat - 48))
    else if 97 ≤ c.toNat ∧ c.toNat ≤ 102 then some (acc * 16 + (c.toNat - 87))
    else if 65 ≤ c.toNat ∧ c.toNat ≤ 70 then some (acc * 16 + (c.toNat - 55))
    else none) 0

/-- Number of (possibly overlapping) occurrences of a double colon. -/
def countColonPairs : List Char → ℕ
  | [] => 0
  | [_] => 0
  | c1 :: c2 :: rest =>
    (if c1 = ':' ∧ c2 = ':' then 1 else 0) + countColonPairs (c2 :: rest)

/-- Text before and after the first double colon, when one occurs. -/
def splitAtDoubleColon : List Char → Option (List Char × List Char)
  | [] => none
  | [_] => none
  | ':' :: ':' :: rest => some ([], rest)
  | c :: rest =>
    match splitAtDoubleColon rest with
    | none => none
    | some (l, r) => some (c :: l, r)

/-- Modelled from the spec: IPv6 parsing; either eight plain groups, or a
single `::` compression expanding to the missing zero groups. Exotic forms
(embedded IPv4, zone indices) are not modelled; they do not occur in this
key space of this program. -/
def parse_ipv6 (s : List Char) : Option (List ℕ) :=
  if s.contains '.' then none
  else if countColonPairs s = 0 then
    let parts := splitOnChar ':' s
    if parts.length = 8 then parts.mapM parseHexGroup else none
  else if countColonPairs s = 1 then
    match splitAtDoubleColon s with
    | none => none
    | some (l, r) =>
      let lparts := if l = [] then [] else splitOnChar ':' l
      let rparts := if r = [] then [] else splitOnChar ':' r
      if lparts.length + rparts.length ≤ 7 then
        match lparts.mapM parseHexGroup, rparts.mapM parseHexGroup with
        | some lv, some rv =>
          some (lv ++ List.replicate (8 - lv.length - rv.length) 0 ++ rv)
        | _, _ => none
      else none
  else none

/-- Modelled from the spec: `ipaddress.ip_address`, which tries IPv4 then IPv6
and raises `ValueError` when neither form parses. -/
def ip_address (s : List Char) : Except PyErr IPAddr :=
  match parse_ipv4 s with
  | some o => .ok (.v4 o)
  | none =>
    match parse_ipv6 s with
    | some g => .ok (.v6 g)
    | none => .error .valueError

/-- Modelled from the spec: the standard link-local test (`169.254.0.0/16` for
IPv4, `fe80::/10` for IPv6). -/
def is_link_local (a : IPAddr) : Bool :=
  match a with
  | .v4 o => o.take 2 = [169, 254]
  | .v6 g => g.headI &&& 65472 = 65152

/-- Modelled from the spec: the standard unspecified-address test (all zeros). -/
def is_unspecified (a : IPAddr) : Bool :=
  match a with
  | .v4 o => o = [0, 0, 0, 0]
  | .v6 g => g.all (· = 0)

theorem keyLt_irrefl (a : Key) : keyLt a a = false := by
  induction a with
  | nil => rfl
  | cons c cs ih => simp [keyLt, ih]

theorem keyLt_trans : ∀ {a b c : Key}, keyLt a b = true → keyLt b c = true →
    keyLt a c = true := by
  intro a
  induction a with
  | nil =>
    intro b c hab hbc
    cases b with
    | nil => exact absurd hab (by simp [keyLt])
    | cons b0 bs =>
      cases c with
      | nil => exact absurd hbc (by simp [keyLt])
      | cons c0 cs => simp [keyLt]
  | cons a0 as ih =>
    intro b c hab hbc
    cases b with
    | nil => exact absurd hab (by simp [keyLt])
    | cons b0 bs =>
      cases c with
      | nil => exact absurd hbc (by simp [keyLt])
      | cons c0 cs =>
        simp only [keyLt] at *
        by_cases h1 : a0 = b0
        · by_cases h2 : b0 = c0
          · subst h1; subst h2
            rw [if_pos rfl] at *
            exact ih hab hbc
          · subst h1
            rw [if_pos rfl] at hab
            rw [if_neg h2] at *
            exact hbc
        · by_cases h2 : b0 = c0
          · subst h2
            rw [if_neg h1] at *
            exact hab
          · rw [if_neg h1] at hab
            rw [if_neg h2] at hbc
            have h3 : a0 < c0 := lt_trans (of_decide_eq_true hab) (of_decide_eq_true hbc)
            by_cases h4 : a0 = c0
            · exact absurd h3 (by rw [h4]; exact lt_irrefl c0)
            · rw [if_neg h4]
              exact decide_eq_true h3

theorem keyLt_cases (a b : Key) : a = b ∨ keyLt a b = true ∨ keyLt b a = true := by
  induction a generalizing b with
  | nil =>
    cases b with
    | nil => exact Or.inl rfl
    | cons b0 bs => exact Or.inr (Or.inl (by simp [keyLt]))
  | cons a0 as ih =>
    cases b with
    | nil => exact Or.inr (Or.inr (by simp [keyLt]))
    | cons b0 bs =>
      by_cases h : a0 = b0
      · subst h
        rcases ih bs with h1 | h1 | h1
        · exact Or.inl (by rw [h1])
        · exact Or.inr (Or.inl (by simp [keyLt, h1]))
        · exact Or.inr (Or.inr (by simp [keyLt, h1]))
      · rcases lt_trichotomy a0 b0 with h1 | h1 | h1
        · exact Or.inr (Or.inl (by simp [keyLt, h, h1]))
        · exact absurd h1 h
        · refine Or.inr (Or.inr ?_)
          have h2 : b0 ≠ a0 := fun he => h he.symm
          simp [keyLt, h2, h1]

theorem keyLt_asymm {a b : Key} (h : keyLt a b = true) : keyLt b a = false := by
  by_contra hc
  have h2 : keyLt b a = true := by
    cases h3 : keyLt b a
    · exact absurd h3 hc
    · rfl
  have := keyLt_trans h h2
  rw [keyLt_irrefl] at this
  cases this

/-- Strictly-ascending lexicographic order: the shape of every list the
sorted-diff of the script consumes (sorted ascending, no duplicates). -/
def Ascending (l : List Key) : Prop := l.Pairwise (fun x y => keyLt x y = true)

/-- APPL_DB route-entry key marker on ASIC_STATE keys
(`SAI_OBJECT_TYPE_ROUTE_ENTRY:` in the source). -/
def ASIC_KEY_MARK : Key := "SAI_OBJECT_TYPE_ROUTE_ENTRY:".data

/-- Collection window of the Change-Event Collector, in seconds
(`SUBSCRIBE_WAIT_SECS = 1`). -/
def SUBSCRIBE_WAIT_SECS : ℤ := 1

/-- Scheduler clamp floor (`MIN_SCAN_INTERVAL = 10`). -/
def MIN_SCAN_INTERVAL : ℤ := 10

/-- Scheduler clamp ceiling (`MAX_SCAN_INTERVAL = 3600`). -/
def MAX_SCAN_INTERVAL : ℤ := 3600

/-- Embedding of `add_prefix`: append `/32` when the string has no IPv6
separator (`ip.find(':') == -1`), else `/128`. -/
def add_prefix (ip : Key) : Key :=
  if ':' ∉ ip then ip ++ "/32".data else ip ++ "/128".data

/-- Embedding of `add_prefix_ifnot`: keep the string when it already has a
prefix separator, else default the prefix length. -/
def add_prefix_ifnot (ip : Key) : Key :=
  if '/' ∈ ip then ip else add_prefix ip

/-- Canonicalization as the spec names it: lowercasing composed with the
prefix-defaulting step, exactly as `get_routes` applies it
(`add_prefix_ifnot(k.lower())`). -/
def canonicalize (s : Key) : Key := add_prefix_ifnot (lowerStr s)

/-- Embedding of `is_local`: parse the address portion before `/` and test
link-locality; a malformed address raises (`ValueError`). -/
def is_local (ip : Key) : Except PyErr Bool :=
  match ip_address ((splitOnChar '/' ip).headI) with
  | .error e => .error e
  | .ok t => .ok (is_link_local t)

/-- Embedding of `is_default_route`: parse the address portion, then evaluate
`t.is_unspecified and ip.split("/")[1] == "0"` with the Python short-circuit
`and`; the index-1 access raises `IndexError` when no second part exists. -/
def is_default_route (ip : Key) : Except PyErr Bool :=
  match ip_address ((splitOnChar '/' ip).headI) with
  | .error e => .error e
  | .ok t =>
    if is_unspecified t then
      match (splitOnChar '/' ip).get? 1 with
      | none => .error .indexError
      | some p => .ok (p = "0".data)
    else .ok false

/-- Embedding of `cmps`: three-way string comparison returning -1/0/1. -/
def cmps (s1 s2 : Key) : ℤ :=
  if s1 = s2 then 0 else if keyLt s1 s2 = true then -1 else 1

/-- Inner step of the sorted-list diff: compares the current left element `a`
against the right list, where `f` diffs the remaining left elements (that is,
`f = diff_sorted_lists as`). The cases mirror the two-pointer loop of
`diff_sorted_lists` in the source: right side exhausted flushes the rest of
the left side (`f []` returns `(as, [])`); equal advances both cursors;
`a` smaller emits `a` to the left-only list and advances the left cursor;
else emits the right element and advances the right cursor. -/
def diffInner (a : Key) (f : List Key → List Key × List Key) :
    List Key → List Key × List Key
  | [] =>
    let r := f []
    (a :: r.1, r.2)
  | b :: bs =>
    let d := cmps a b
    if d = 0 then f bs
    else if d < 0 then
      let r := f (b :: bs)
      (a :: r.1, r.2)
    else
      let r := diffInner a f bs
      (r.1, b :: r.2)

/-- Embedding of `diff_sorted_lists`: merge-style diff of two sorted lists,
returning (entries only in the first, entries only in the second). -/
def diff_sorted_lists : List Key → List Key → List Key × List Key
  | [], t2 => ([], t2)
  | a :: as, t2 => diffInner a (diff_sorted_lists as) t2

/-- Embedding of `checkout_rt_entry`: keep only `SAI_OBJECT_TYPE_ROUTE_ENTRY`
keys, extract the lowercased `dest` value (the fourth piece of the key split
at double quotes, raising `IndexError` if absent as `[3]` would), and drop
link-local destinations. `some e` stands for the source value `(True, e)` and
`none` for `(False, None)`. -/
def checkout_rt_entry (k : Key) : Except PyErr (Option Key) :=
  if ASIC_KEY_MARK.isPrefixOf k then
    match (splitOnChar '"' (lowerStr k)).get? 3 with
    | none => .error .indexError
    | some e =>
      match is_local e with
      | .error err => .error err
      | .ok loc => if loc then .ok none else .ok (some e)
  else .ok none

/-- One raw message popped from the subscription feed: key and operation
(`"SET"`/`"DEL"`). -/
structure RawEvent where
  key : Key
  op : Key
deriving DecidableEq, Repr

/-- One return of `selector.select`: the milliseconds the call blocked and
the messages buffered for the subsequent drain loop. An empty `events` list
models a wake with nothing buffered. -/
structure Wake where
  elapsedMs : ℤ
  events : List RawEvent
deriving DecidableEq, Repr

/-- Trace record of one `selector.select` call: the seconds value passed as
its timeout, the clock when it was called, and the time it consumed. -/
structure SubStep where
  waitSecs : ℤ
  tcall : ℤ
  elapsedMs : ℤ
deriving DecidableEq, Repr

/-- Result of the collection loop: add/remove key lists, the trace of select
calls, and the clock when the loop exited. -/
structure SubUpd where
  adds : List Key
  deletes : List Key
  trace : List SubStep
  endTime : ℤ
deriving DecidableEq, Repr

/-- Embedding of the inner drain loop of `get_subscribe_updates`: pop every
buffered message, filter through `checkout_rt_entry`, and classify by
operation into adds/deletes. -/
def process_events : List RawEvent → List Key → List Key →
    Except PyErr (List Key × List Key)
  | [], adds, deletes => .ok (adds, deletes)
  | ev :: rest, adds, deletes =>
    match checkout_rt_entry ev.key with
    | .error e => .error e
    | .ok none => process_events rest adds deletes
    | .ok (some e) =>
      if ev.op = "SET".data then process_events rest (adds ++ [e]) deletes
      else if ev.op = "DEL".data then process_events rest adds (deletes ++ [e])
      else process_events rest adds deletes

/-- Embedding of the `while t_wait > 0` loop of `get_subscribe_updates`.
The loop head recomputes `t_wait = int(t_end - time.time())` (for the first
iteration this equals the initial `t_wait = SUBSCRIBE_WAIT_SECS`, since
`t_end` was just set to `time.time() + SUBSCRIBE_WAIT_SECS`). While positive,
`selector.select(t_wait)` blocks: either the environment wakes it after
`w.elapsedMs` with buffered messages, or — when no wake-up remains — the call
times out after the full `t_wait` seconds, after which the recomputed
remaining time is necessarily ≤ 0 (`sub_loop_timeout_exits` below) and the
loop exits; the final drain pops nothing. -/
def sub_loop (t_end : ℤ) (now : ℤ) (wakes : List Wake) (adds deletes : List Key)
    (trace : List SubStep) : Except PyErr SubUpd :=
  let t_wait := msToSecTrunc (t_end - now)
  if 0 < t_wait then
    match wakes with
    | [] =>
      .ok ⟨adds, deletes, trace ++ [⟨t_wait, now, t_wait * 1000⟩],
        now + t_wait * 1000⟩
    | w :: ws =>
      match process_events w.events adds deletes with
      | .error e => .error e
      | .ok (a2, d2) =>
        sub_loop t_end (now + w.elapsedMs) ws a2 d2
          (trace ++ [⟨t_wait, now, w.elapsedMs⟩])
  else .ok ⟨adds, deletes, trace, now⟩

/-- Justification that flattening the final timeout into one step is exact:
after a full `t_wait`-second timeout the recomputed remaining time truncates
to a non-positive value, so the source loop would exit then anyway. -/
theorem sub_loop_timeout_exits (t_end now : ℤ)
    (h : 0 < msToSecTrunc (t_end - now)) :
    msToSecTrunc (t_end - (now + msToSecTrunc (t_end - now) * 1000)) ≤ 0 := by
  unfold msToSecTrunc at *
  split at h
  · next h0 =>
    split
    · next h1 => omega
    · next h1 => omega
  · next h0 => omega

/-- Embedding of `get_subscribe_updates`: collect subscription messages until
the absolute deadline `now + SUBSCRIBE_WAIT_SECS` (here in milliseconds),
returning the sorted add and delete key lists. -/
def get_subscribe_updates (now : ℤ) (wakes : List Wake) : Except PyErr SubUpd :=
  match sub_loop (now + SUBSCRIBE_WAIT_SECS * 1000) now wakes [] [] [] with
  | .error e => .error e
  | .ok r => .ok ⟨sortKeys r.adds, sortKeys r.deletes, r.trace, r.endTime⟩

/-- Per-key loop of `get_routes`: drop link-local keys, canonicalize the rest;
`is_local` may raise on a malformed key, which propagates. -/
def get_routes_loop : List Key → Except PyErr (List Key)
  | [] => .ok []
  | k :: ks =>
    match is_local k with
    | .error e => .error e
    | .ok loc =>
      match get_routes_loop ks with
      | .error e => .error e
      | .ok rest =>
        .ok (if loc then rest else add_prefix_ifnot (lowerStr k) :: rest)

/-- Embedding of `get_routes`: read the APPL-DB ROUTE_TABLE keys (the store
read itself may raise), filter and canonicalize them, and sort. -/
def get_routes (read : Except PyErr (List Key)) : Except PyErr (List Key) :=
  match read with
  | .error e => .error e
  | .ok keys =>
    match get_routes_loop keys with
    | .error e => .error e
    | .ok valid_rt => .ok (sortKeys valid_rt)

/-- Per-key loop of `get_route_entries`: keep the destinations that
`checkout_rt_entry` accepts. -/
def get_route_entries_loop : List Key → Except PyErr (List Key)
  | [] => .ok []
  | k :: ks =>
    match checkout_rt_entry k with
    | .error e => .error e
    | .ok r =>
      match get_route_entries_loop ks with
      | .error e => .error e
      | .ok rest =>
        .ok (match r with | some e => e :: rest | none => rest)

/-- Embedding of `get_route_entries`: drain the ASIC-DB snapshot through
`checkout_rt_entry` and sort the surviving destinations. -/
def get_route_entries (read : Except PyErr (List Key)) : Except PyErr (List Key) :=
  match read with
  | .error e => .error e
  | .ok keys =>
    match get_route_entries_loop keys with
    | .error e => .error e
    | .ok rt => .ok (sortKeys rt)

/-- Per-key loop of `get_interfaces`: split the lowercased INTF_TABLE key at
the first colon (`re.split(':', k.lower(), maxsplit=1)`), skip keys without an
address part, take the address before `/`, default its prefix, and drop
link-local addresses. -/
def get_interfaces_loop : List Key → Except PyErr (List Key)
  | [] => .ok []
  | k :: ks =>
    match splitFirst ':' (lowerStr k) with
    | none => get_interfaces_loop ks
    | some (_, rest) =>
      let ip := add_prefix ((splitOnChar '/' rest).headI)
      match is_local ip with
      | .error e => .error e
      | .ok loc =>
        match get_interfaces_loop ks with
        | .error e => .error e
        | .ok acc => .ok (if loc then acc else ip :: acc)

/-- Embedding of `get_interfaces`: read the APPL-DB INTF_TABLE keys, extract
and canonicalize their addresses, and sort. -/
def get_interfaces (read : Except PyErr (List Key)) : Except PyErr (List Key) :=
  match read with
  | .error e => .error e
  | .ok keys =>
    match get_interfaces_loop keys with
    | .error e => .error e
    | .ok intf => .ok (sortKeys intf)

/-- Test of `re.match(x, s)` for the local-interface name patterns
`eth0`, `lo`, `docker0`, `tun0`, `Loopback\d+` (prefix match; the last one
requires at least one digit after `Loopback`). -/
def matchesLocalIf (s : Key) : Bool :=
  "eth0".data.isPrefixOf s || "lo".data.isPrefixOf s ||
  "docker0".data.isPrefixOf s || "tun0".data.isPrefixOf s ||
  ("Loopback".data.isPrefixOf s ∧
    ((s.drop 8).headI.toNat ≥ 48 ∧ (s.drop 8).headI.toNat ≤ 57 ∧ s.length > 8))

/-- Embedding of `filter_out_local_interfaces`: keep a route key when its
ROUTE_TABLE attributes are empty (`not e`) or its `ifname` matches no
local-interface pattern; a non-empty attribute dict without `ifname` raises
`KeyError` as `e['ifname']` would. -/
def filter_out_local_interfaces (attrs : Key → List (Key × Key)) :
    List Key → Except PyErr (List Key)
  | [] => .ok []
  | k :: ks =>
    let e := attrs k
    match (if e.isEmpty then .ok true
           else match e.lookup ("ifname".data) with
                | none => .error .keyError
                | some ifname => .ok (! matchesLocalIf ifname) :
            Except PyErr Bool) with
    | .error err => .error err
    | .ok keep =>
      match filter_out_local_interfaces attrs ks with
      | .error err => .error err
      | .ok rest => .ok (if keep then k :: rest else rest)

/-- Embedding of `filter_out_default_routes`: drop the entries for which
`is_default_route` holds; its exceptions propagate. -/
def filter_out_default_routes : List Key → Except PyErr (List Key)
  | [] => .ok []
  | rt :: rest =>
    match is_default_route rt with
    | .error e => .error e
    | .ok b =>
      match filter_out_default_routes rest with
      | .error e => .error e
      | .ok upd => .ok (if b then upd else rt :: upd)

/-- The failure-report mapping built by `check_routes`; a category that stays
an empty list models a key absent from the Python `results` dict. -/
structure MismatchSet where
  missed_ROUTE_TABLE_routes : List Key
  missed_INTF_TABLE_entries : List Key
  Unaccounted_ROUTE_ENTRY_TABLE_entries : List Key
deriving DecidableEq, Repr

/-- Truthiness of the `results` dict: it got at least one key. -/
def resultsNonempty (m : MismatchSet) : Bool :=
  ! m.missed_ROUTE_TABLE_routes.isEmpty ||
  ! m.missed_INTF_TABLE_entries.isEmpty ||
  ! m.Unaccounted_ROUTE_ENTRY_TABLE_entries.isEmpty

/-- The environment of one reconciliation cycle: what each external
collaborator returns. The three store reads are `Except`-valued because the
state-store client may itself raise (StoreUnavailable); `route_attrs` models
`dict(tbl.get(k)[1])` for the ROUTE_TABLE attribute lookup; `now` is the
clock (ms) when the cycle reaches the collector; `wakes` drives the
subscription feed. -/
structure Env where
  asic_keys : Except PyErr (List Key)
  route_keys : Except PyErr (List Key)
  intf_keys : Except PyErr (List Key)
  route_attrs : Key → List (Key × Key)
  now : ℤ
  wakes : List Wake

/-- Embedding of `check_routes`, step for step: read the three lists (ASIC
snapshot first), baseline-diff declared routes against realized entries,
discount interface-derived and default-route entries, compute missed
interface entries, filter local-interface routes, collect subscription
updates only when a route diff remains, subtract confirmed adds/deletes, and
report. The `Option`-valued `addsOpt`/`deletesOpt` model the Python locals
`adds`/`deletes`, which are assigned only inside the collection branch:
printing them while unassigned raises `UnboundLocalError`. -/
def check_routes (env : Env) : Except PyErr (ℤ × Option MismatchSet) :=
  match get_route_entries env.asic_keys with
  | .error e => .error e
  | .ok rt_asic =>
  match get_routes env.route_keys with
  | .error e => .error e
  | .ok rt_appl =>
  match get_interfaces env.intf_keys with
  | .error e => .error e
  | .ok intf_appl =>
  let p1 := diff_sorted_lists rt_appl rt_asic
  let p2 := diff_sorted_lists intf_appl p1.2
  match filter_out_default_routes p2.2 with
  | .error e => .error e
  | .ok rt_asic_miss =>
  let intf_appl_miss := (diff_sorted_lists intf_appl rt_asic).1
  match (if p1.1.isEmpty then .ok p1.1
         else filter_out_local_interfaces env.route_attrs p1.1 :
          Except PyErr (List Key)) with
  | .error e => .error e
  | .ok rt_appl_miss =>
  match (if ! rt_appl_miss.isEmpty || ! rt_asic_miss.isEmpty then
           match get_subscribe_updates env.now env.wakes with
           | .error e => .error e
           | .ok sr =>
             .ok (some sr.adds, some sr.deletes,
               (diff_sorted_lists rt_appl_miss sr.adds).1,
               (diff_sorted_lists rt_asic_miss sr.deletes).1)
         else .ok (none, none, rt_appl_miss, rt_asic_miss) :
          Except PyErr (Option (List Key) × Option (List Key) ×
            List Key × List Key)) with
  | .error e => .error e
  | .ok (addsOpt, deletesOpt, rt_appl_miss2, rt_asic_miss2) =>
  let results : MismatchSet := ⟨rt_appl_miss2, intf_appl_miss, rt_asic_miss2⟩
  if resultsNonempty results then
    match addsOpt with
    | none => .error .unboundLocal
    | some _ =>
      match deletesOpt with
      | none => .error .unboundLocal
      | some _ => .ok (-1, some results)
  else .ok (0, none)

/-- Embedding of the interval handling in `main`: `if args.interval:` treats
only a non-zero request as looping, clamped to `[MIN_SCAN_INTERVAL,
MAX_SCAN_INTERVAL]`; a zero request leaves `interval = 0` (single-shot). -/
def effective_interval (req : ℤ) : ℤ :=
  if req ≠ 0 then
    if req < MIN_SCAN_INTERVAL then MIN_SCAN_INTERVAL
    else if req > MAX_SCAN_INTERVAL then MAX_SCAN_INTERVAL
    else req
  else 0

/-- Embedding of the `while True` loop of `main`, observed for finitely many
ticks (one `Env` per cycle the environment will ever provide). With a zero
interval the loop returns the result of the first cycle with no sleep; with a
non-zero interval it sleeps `interval` seconds after every cycle (recorded in
the second component) and keeps cycling. An exception from `check_routes`
propagates out of the loop — `main` has no handler. -/
def scheduler_run (interval : ℤ) :
    List Env → Except PyErr (List (ℤ × Option MismatchSet) × List ℤ)
  | [] => .ok ([], [])
  | env :: rest =>
    match check_routes env with
    | .error e => .error e
    | .ok r =>
      if interval ≠ 0 then
        match scheduler_run interval rest with
        | .error e => .error e
        | .ok (outs, sleeps) => .ok (r :: outs, interval :: sleeps)
      else .ok ([r], [])

theorem slash_mem_canonicalize (s : Key) : '/' ∈ canonicalize s := by
  unfold canonicalize add_prefix_ifnot
  by_cases h : '/' ∈ lowerStr s
  · rwa [if_pos h]
  · rw [if_neg h]
    unfold add_prefix
    by_cases h2 : ':' ∉ lowerStr s
    · rw [if_pos h2]
      exact List.mem_append_right _ (by decide)
    · rw [if_neg h2]
      exact List.mem_append_right _ (by decide)

theorem lowerStr_canonicalize (s : Key) : lowerStr (canonicalize s) = canonicalize s := by
  unfold canonicalize add_prefix_ifnot
  by_cases h : '/' ∈ lowerStr s
  · rw [if_pos h]
    exact lowerStr_idem s
  · rw [if_neg h]
    unfold add_prefix
    by_cases h2 : ':' ∉ lowerStr s
    · rw [if_pos h2, lowerStr_append, lowerStr_idem]
      exact congrArg _ (by decide)
    · rw [if_neg h2, lowerStr_append, lowerStr_idem]
      exact congrArg _ (by decide)

/-- C8: for every input string without a prefix separator, canonicalization
appends `/32` when there is no IPv6 separator and `/128` otherwise; a string
that already has a prefix separator is only lowercased; in particular
`canonicalize "10.0.0.1" = "10.0.0.1/32"`,
`canonicalize "fe80::1" = "fe80::1/128"` and `canonicalize "10.0.0.0/0"`
is unchanged. -/
theorem canonicalize_prefix_rules :
    (∀ s : Key, '/' ∉ s → ':' ∉ s → canonicalize s = lowerStr s ++ "/32".data) ∧
    (∀ s : Key, '/' ∉ s → ':' ∈ s → canonicalize s = lowerStr s ++ "/128".data) ∧
    (∀ s : Key, '/' ∈ s → canonicalize s = lowerStr s) ∧
    canonicalize ("10.0.0.1".data) = ("10.0.0.1/32".data) ∧
    canonicalize ("fe80::1".data) = ("fe80::1/128".data) ∧
    canonicalize ("10.0.0.0/0".data) = ("10.0.0.0/0".data) := by
  have hsl : ('/' : Char).toNat < 65 := by decide
  have hco : (':' : Char).toNat < 65 := by decide
  refine ⟨?_, ?_, ?_, by decide, by decide, by decide⟩
  · intro s h1 h2
    unfold canonicalize add_prefix_ifnot add_prefix
    rw [if_neg (fun hm => h1 ((mem_lowerStr_iff hsl).mp hm)),
      if_pos (fun hm => h2 ((mem_lowerStr_iff hco).mp hm))]
  · intro s h1 h2
    unfold canonicalize add_prefix_ifnot add_prefix
    rw [if_neg (fun hm => h1 ((mem_lowerStr_iff hsl).mp hm)),
      if_neg (fun hn => hn ((mem_lowerStr_iff hco).mpr h2))]
  · intro s h1
    unfold canonicalize add_prefix_ifnot
    exact if_pos ((mem_lowerStr_iff hsl).mpr h1)

/-- Closed instances of `canonicalize_prefix_rules`, discharging each of its
hypotheses on concrete inputs. -/
theorem canonicalize_prefix_rules_witness :
    canonicalize ("10.11.0.7".data) = lowerStr ("10.11.0.7".data) ++ "/32".data ∧
    canonicalize ("FE80::A".data) = lowerStr ("FE80::A".data) ++ "/128".data ∧
    canonicalize ("10.0.0.0/8".data) = lowerStr ("10.0.0.0/8".data) :=
  ⟨canonicalize_prefix_rules.1 ("10.11.0.7".data) (by decide) (by decide),
   canonicalize_prefix_rules.2.1 ("FE80::A".data) (by decide) (by decide),
   canonicalize_prefix_rules.2.2.1 ("10.0.0.0/8".data) (by decide)⟩

/-- C9: canonicalization (lowercasing composed with the prefix-defaulting
step `add_prefix_ifnot`) is idempotent on every input string. -/
theorem canonicalize_idempotent (s : Key) :
    canonicalize (canonicalize s) = canonicalize s := by
  show add_prefix_ifnot (lowerStr (canonicalize s)) = canonicalize s
  rw [lowerStr_canonicalize]
  unfold add_prefix_ifnot
  exact if_pos (slash_mem_canonicalize s)

/-- C10 counterexample: `is_default_route` applied to an address without a
prefix separator does not fail for a non-unspecified address — the Python
short-circuit `and` returns `False` before the `[1]` access is evaluated —
contradicting the claim that the index-1 access fails for any input without
a `/`. -/
theorem is_default_route_no_slash_cex :
    is_default_route ("10.0.0.1".data) = Except.ok false := by rfl

/-- C10 (amended): on an input without a `/` whose address parses, the
index-1 access is reached — and raises `IndexError` — exactly when the
address is the unspecified address; otherwise the short-circuit returns
`false`. On a key containing `/` (the canonical-form invariant of every key
reaching `filter_out_default_routes`) the second component exists, so
`is_default_route` returns a value and the error branch is unreachable. -/
theorem is_default_route_no_slash_spec :
    (∀ s : Key, '/' ∉ s → ∀ addr, ip_address s = .ok addr →
      is_default_route s =
        (if is_unspecified addr then Except.error PyErr.indexError
         else Except.ok false)) ∧
    (∀ s : Key, '/' ∈ s →
      ∀ addr, ip_address ((splitOnChar '/' s).headI) = .ok addr →
      ∃ b, is_default_route s = Except.ok b) := by
  constructor
  · intro s h addr haddr
    unfold is_default_route
    rw [splitOnChar_of_not_mem h]
    simp only [List.headI, haddr]
    by_cases hu : is_unspecified addr = true
    · rw [if_pos hu, if_pos hu]
      rfl
    · rw [if_neg hu, if_neg hu]
  · intro s h addr haddr
    have hlen := splitOnChar_length_ge_two h
    obtain ⟨p, hp⟩ : ∃ p, (splitOnChar '/' s).get? 1 = some p := by
      cases h2 : (splitOnChar '/' s).get? 1 with
      | none =>
        rw [List.get?_eq_none] at h2
        omega
      | some p => exact ⟨p, rfl⟩
    unfold is_default_route
    simp only [haddr]
    by_cases hu : is_unspecified addr = true
    · rw [if_pos hu, hp]
      exact ⟨_, rfl⟩
    · rw [if_neg hu]
      exact ⟨false, rfl⟩

/-- Closed instances of `is_default_route_no_slash_spec`: the unspecified
address without `/` raises `IndexError`, and a canonical key returns a value. -/
theorem is_default_route_no_slash_spec_witness :
    is_default_route ("0.0.0.0".data) = Except.error PyErr.indexError ∧
    ∃ b, is_default_route ("10.0.0.0/8".data) = Except.ok b := by
  constructor
  · have h := is_default_route_no_slash_spec.1 ("0.0.0.0".data) (by decide)
      (IPAddr.v4 [0, 0, 0, 0]) (by rfl)
    simpa using h
  · exact is_default_route_no_slash_spec.2 ("10.0.0.0/8".data) (by decide)
      (IPAddr.v4 [10, 0, 0, 0]) (by rfl)

/-- A realistic ASIC_STATE route-entry key whose destination is the IPv4
default route. -/
def saiDefaultKey : Key :=
  ("SAI_OBJECT_TYPE_ROUTE_ENTRY:\x7b\"dest\":\"0.0.0.0/0\",\"switch_id\":\"oid:0x21\"\x7d").data

/-- Cycle environment of end-to-end scenario D: the realized forwarding table
holds only `0.0.0.0/0`, declared routes and interfaces are empty, no events. -/
def envScenarioD : Env :=
  ⟨.ok [saiDefaultKey], .ok [], .ok [], fun _ => [], 0, []⟩

/-- C7: `is_default_route` holds exactly when the address portion before the
`/` is the unspecified all-zeros address and the prefix-length part is the
string `0`; `filter_out_default_routes` removes exactly the entries satisfying
it; consequently a cycle whose only baseline discrepancy is a realized
`0.0.0.0/0` entry reports success. -/
theorem is_default_route_spec_scenarioD :
    (∀ k : Key, '/' ∈ k →
      ∀ addr, ip_address ((splitOnChar '/' k).headI) = .ok addr →
      (is_default_route k = Except.ok true ↔
        (is_unspecified addr = true ∧ (splitOnChar '/' k).get? 1 = some ("0".data)))) ∧
    (∀ lst : List Key, (∀ k ∈ lst, ∃ b, is_default_route k = Except.ok b) →
      filter_out_default_routes lst =
        .ok (lst.filter (fun k =>
          match is_default_route k with
          | .ok true => false
          | _ => true))) ∧
    check_routes envScenarioD = .ok (0, none) := by
  refine ⟨?_, ?_, by rfl⟩
  · intro k hk addr haddr
    have hlen := splitOnChar_length_ge_two hk
    obtain ⟨p, hp⟩ : ∃ p, (splitOnChar '/' k).get? 1 = some p := by
      cases h2 : (splitOnChar '/' k).get? 1 with
      | none =>
        rw [List.get?_eq_none] at h2
        omega
      | some p => exact ⟨p, rfl⟩
    unfold is_default_route
    simp only [haddr]
    by_cases hu : is_unspecified addr = true
    · rw [if_pos hu, hp]
      simp only [Except.ok.injEq, decide_eq_true_eq]
      constructor
      · intro hpe
        exact ⟨hu, congrArg some hpe⟩
      · rintro ⟨_, hps⟩
        exact Option.some.inj hps
    · rw [if_neg hu]
      constructor
      · intro hfalse
        exact absurd (by injection hfalse) Bool.false_ne_true
      · rintro ⟨hu2, _⟩
        exact absurd hu2 hu
  · intro lst hall
    induction lst with
    | nil => rfl
    | cons k ks ih =>
      obtain ⟨b, hb⟩ := hall k (List.mem_cons_self k ks)
      have hks := ih (fun x hx => hall x (List.mem_cons_of_mem k hx))
      simp only [filter_out_default_routes, hb, hks, List.filter_cons]
      cases b with
      | true => simp [hb]
      | false => simp [hb]

/-- Closed instances of `is_default_route_spec_scenarioD`, discharging its
hypotheses at `0.0.0.0/0`. -/
theorem is_default_route_spec_scenarioD_witness :
    (is_default_route ("0.0.0.0/0".data) = Except.ok true ↔
      (is_unspecified (IPAddr.v4 [0, 0, 0, 0]) = true ∧
        (splitOnChar '/' ("0.0.0.0/0".data)).get? 1 = some ("0".data))) ∧
    filter_out_default_routes ["0.0.0.0/0".data] =
      .ok ((["0.0.0.0/0".data] : List Key).filter (fun k =>
        match is_default_route k with
        | .ok true => false
        | _ => true)) :=
  ⟨is_default_route_spec_scenarioD.1 ("0.0.0.0/0".data) (by decide)
      (IPAddr.v4 [0, 0, 0, 0]) (by rfl),
   is_default_route_spec_scenarioD.2.1 ["0.0.0.0/0".data]
      (fun k hk => by
        rw [List.mem_singleton] at hk
        exact ⟨true, by rw [hk]; rfl⟩)⟩

/-- An environment whose first store read fails (StoreUnavailable). -/
def envStoreFail : Env :=
  ⟨.error .storeError, .ok [], .ok [], fun _ => [], 0, []⟩

/-- A fully healthy, fully empty cycle environment. -/
def envGood : Env :=
  ⟨.ok [], .ok [], .ok [], fun _ => [], 0, []⟩

/-- C3 counterexample: in looping mode (interval 10) a store failure in the
first cycle terminates the run with the raised error — the following healthy
cycle is never reached and nothing proceeds to the next tick, contrary to the
claim that the Scheduler logs the failure and keeps looping. -/
theorem scheduler_store_error_cex :
    scheduler_run 10 [envStoreFail, envGood] = Except.error PyErr.storeError := by
  rfl

/-- C3 (amended): a state-store failure during a cycle is fatal to the whole
process in both modes: `main` has no exception handler, so the error from
`check_routes` propagates out of the loop unchanged — looping mode does not
log it and proceed, and single-shot mode does not convert it into a failure
result. -/
theorem store_error_fatal (interval : ℤ) (env : Env) (rest : List Env)
    (e : PyErr) (h : check_routes env = .error e) :
    scheduler_run interval (env :: rest) = .error e := by
  simp only [scheduler_run, h]

/-- Closed instance of `store_error_fatal` at a concrete failing environment. -/
theorem store_error_fatal_witness :
    scheduler_run 3600 [envStoreFail, envGood, envGood] = Except.error PyErr.storeError :=
  store_error_fatal 3600 envStoreFail [envGood, envGood] PyErr.storeError (by rfl)

/-- C6: the effective scan interval is the requested one floored to
`MIN_SCAN_INTERVAL` and ceilinged to `MAX_SCAN_INTERVAL` (5 becomes 10,
100000 becomes 3600), while a requested interval of exactly 0 makes the
Scheduler run a single cycle and return its result with no sleep and no
further looping (the remaining ticks are ignored). -/
theorem interval_clamp_single_shot :
    (∀ req : ℤ, req ≠ 0 →
      effective_interval req = max MIN_SCAN_INTERVAL (min MAX_SCAN_INTERVAL req)) ∧
    effective_interval 5 = 10 ∧
    effective_interval 100000 = 3600 ∧
    effective_interval 0 = 0 ∧
    (∀ (env : Env) (rest : List Env) (r : ℤ × Option MismatchSet),
      check_routes env = .ok r →
      scheduler_run (effective_interval 0) (env :: rest) = .ok ([r], [])) := by
  refine ⟨?_, by decide, by decide, by decide, ?_⟩
  · intro req hreq
    unfold effective_interval MIN_SCAN_INTERVAL MAX_SCAN_INTERVAL
    rw [if_pos hreq]
    split
    · next h1 => omega
    · next h1 =>
      split
      · next h2 => omega
      · next h2 => omega
  · intro env rest r h
    have h0 : effective_interval 0 = 0 := by decide
    rw [h0]
    simp only [scheduler_run, h]
    rw [if_neg (by decide)]

/-- Closed instances of `interval_clamp_single_shot`, discharging its
hypotheses at requested interval 5 and at an empty healthy cycle. -/
theorem interval_clamp_single_shot_witness :
    effective_interval 5 = max MIN_SCAN_INTERVAL (min MAX_SCAN_INTERVAL 5) ∧
    scheduler_run (effective_interval 0) [envGood, envGood] = .ok ([(0, none)], []) :=
  ⟨interval_clamp_single_shot.1 5 (by decide),
   interval_clamp_single_shot.2.2.2.2 envGood [envGood] (0, none) (by rfl)⟩

/-- A cycle environment whose ROUTE_TABLE contains one healthy key and one
malformed key (an octet above 255 parses as neither IPv4 nor IPv6). -/
def envBadKey : Env :=
  ⟨.ok [], .ok ["10.0.0.0/24".data, "300.300.300.300/32".data], .ok [],
    fun _ => [], 0, []⟩

/-- C2 counterexample: a single malformed ROUTE_TABLE key makes the whole
cycle abort with the raised `ValueError` — the entry is not dropped with a
diagnostic and the cycle does not continue over the remaining entries,
contrary to the claim. -/
theorem malformed_key_cex :
    check_routes envBadKey = Except.error PyErr.valueError := by
  rfl

theorem get_routes_loop_error {keys : List Key} {k : Key} {e : PyErr}
    (hk : k ∈ keys) (he : is_local k = .error e) :
    ∃ e2, get_routes_loop keys = .error e2 := by
  induction keys with
  | nil => cases hk
  | cons k0 ks ih =>
    cases h0 : is_local k0 with
    | error e0 => exact ⟨e0, by simp only [get_routes_loop, h0]⟩
    | ok b =>
      rcases List.mem_cons.mp hk with h1 | h1
      · rw [h1] at he
        rw [he] at h0
        cases h0
      · obtain ⟨e2, h2⟩ := ih h1
        exact ⟨e2, by simp only [get_routes_loop, h0, h2]⟩

/-- C2 (amended): a raw ROUTE_TABLE key that fails canonicalization raises
inside `is_local`, and the exception aborts the whole cycle (`get_routes` has
no per-entry recovery, and `check_routes` does not catch it); the malformed
key never silently passes the filters, but neither is it dropped with the
cycle continuing. -/
theorem malformed_key_aborts_cycle (env : Env) (keys : List Key) (k : Key)
    (e : PyErr) (hr : env.route_keys = .ok keys) (hk : k ∈ keys)
    (he : is_local k = .error e) (rt : List Key)
    (ha : get_route_entries env.asic_keys = .ok rt) :
    ∃ e2, check_routes env = .error e2 := by
  obtain ⟨e2, hloop⟩ := get_routes_loop_error hk he
  have hgr : get_routes env.route_keys = .error e2 := by
    rw [hr]
    simp only [get_routes, hloop]
  exact ⟨e2, by simp only [check_routes, ha, hgr]⟩

/-- Closed instance of `malformed_key_aborts_cycle` at `envBadKey`. -/
theorem malformed_key_aborts_cycle_witness :
    ∃ e2, check_routes envBadKey = Except.error e2 :=
  malformed_key_aborts_cycle envBadKey
    ["10.0.0.0/24".data, "300.300.300.300/32".data]
    ("300.300.300.300/32".data) PyErr.valueError (by rfl)
    (by simp) (by rfl) [] (by rfl)

/-- The cycle environment that exposes the unbound-local failure: the only
mismatch category that fires is `missed_INTF_TABLE_entries` (one interface
address with no realized forwarding entry), so the collector branch is
skipped and `adds`/`deletes` are never assigned. -/
def envIntfOnly : Env :=
  ⟨.ok [], .ok [], .ok ["ethernet0:10.0.0.5/24".data], fun _ => [], 0, []⟩

/-- C1: evaluation of `check_routes` on a cycle whose only non-empty
category is `missed_INTF_TABLE_entries`. The source reaches
`print_message(syslog.LOG_ERR, "add: {", json.dumps(adds, ...), "}")` with
`adds` never assigned (the collector branch at line 391 was not taken), so
instead of printing the report and returning `(-1, results)` the cycle dies
with `UnboundLocalError` — the claimed behavior is the evident intent and the
code slips. -/
theorem check_routes_unbound_adds :
    check_routes envIntfOnly = Except.error PyErr.unboundLocal := by
  rfl

theorem diff_nil_right (a : List Key) : diff_sorted_lists a [] = (a, []) := by
  induction a with
  | nil => rfl
  | cons a0 as ih => simp only [diff_sorted_lists, diffInner, ih]

theorem not_mem_of_lt_all {x : Key} {l : List Key}
    (h : ∀ y ∈ l, keyLt x y = true) : x ∉ l := by
  intro hm
  have h2 := h x hm
  rw [keyLt_irrefl] at h2
  cases h2

theorem diff_eq_filter (a : List Key) : ∀ b : List Key, Ascending a → Ascending b →
    diff_sorted_lists a b =
      (a.filter (fun x => ! decide (x ∈ b)), b.filter (fun x => ! decide (x ∈ a))) := by
  induction a with
  | nil =>
    intro b _ _
    simp only [diff_sorted_lists, List.filter_nil]
    have hb : b.filter (fun x => ! decide (x ∈ ([] : List Key))) = b :=
      List.filter_eq_self.mpr (fun x _ => by simp)
    rw [hb]
  | cons a0 as ih =>
    intro b ha hb
    obtain ⟨ha0, has⟩ := List.pairwise_cons.mp ha
    revert hb
    induction b with
    | nil =>
      intro _
      rw [diff_nil_right]
      have h1 : (a0 :: as).filter (fun x => ! decide (x ∈ ([] : List Key))) = a0 :: as :=
        List.filter_eq_self.mpr (fun x _ => by simp)
      rw [h1]
      rfl
    | cons b0 bs ihb =>
      intro hb
      obtain ⟨hb0, hbs⟩ := List.pairwise_cons.mp hb
      by_cases he : a0 = b0
      · have hd : cmps a0 b0 = 0 := by rw [cmps, if_pos he]
        have hstep : diff_sorted_lists (a0 :: as) (b0 :: bs) = diff_sorted_lists as bs := by
          simp [diff_sorted_lists, diffInner, hd]
        subst he
        rw [hstep, ih bs has hbs]
        have hxne : ∀ x ∈ as, x ≠ a0 := by
          intro x hx hxe
          have h2 := ha0 x hx
          rw [hxe, keyLt_irrefl] at h2
          cases h2
        have hyne : ∀ y ∈ bs, y ≠ a0 := by
          intro y hy hye
          have h2 := hb0 y hy
          rw [hye, keyLt_irrefl] at h2
          cases h2
        have hf1 : (a0 :: as).filter (fun x => ! decide (x ∈ a0 :: bs)) =
            as.filter (fun x => ! decide (x ∈ bs)) := by
          rw [List.filter_cons_of_neg (by simp)]
          exact List.filter_congr (fun x hx => by simp [List.mem_cons, hxne x hx])
        have hf2 : (a0 :: bs).filter (fun x => ! decide (x ∈ a0 :: as)) =
            bs.filter (fun x => ! decide (x ∈ as)) := by
          rw [List.filter_cons_of_neg (by simp)]
          exact List.filter_congr (fun y hy => by simp [List.mem_cons, hyne y hy])
        rw [hf1, hf2]
      · by_cases hlt : keyLt a0 b0 = true
        · have hd : cmps a0 b0 = -1 := by rw [cmps, if_neg he, if_pos hlt]
          have hstep : diff_sorted_lists (a0 :: as) (b0 :: bs) =
              (a0 :: (diff_sorted_lists as (b0 :: bs)).1,
                (diff_sorted_lists as (b0 :: bs)).2) := by
            simp [diff_sorted_lists, diffInner, hd]
          rw [hstep, ih (b0 :: bs) has hb]
          have hall : ∀ y ∈ b0 :: bs, keyLt a0 y = true := by
            intro y hy
            rcases List.mem_cons.mp hy with h1 | h1
            · rw [h1]; exact hlt
            · exact keyLt_trans hlt (hb0 y h1)
          have hnm : a0 ∉ b0 :: bs := not_mem_of_lt_all hall
          have hyne : ∀ y ∈ b0 :: bs, y ≠ a0 := by
            intro y hy hye
            have h2 := hall y hy
            rw [hye, keyLt_irrefl] at h2
            cases h2
          have hf1 : (a0 :: as).filter (fun x => ! decide (x ∈ b0 :: bs)) =
              a0 :: as.filter (fun x => ! decide (x ∈ b0 :: bs)) :=
            List.filter_cons_of_pos (by simp [hnm])
          have hf2 : (b0 :: bs).filter (fun y => ! decide (y ∈ a0 :: as)) =
              (b0 :: bs).filter (fun y => ! decide (y ∈ as)) :=
            List.filter_congr (fun y hy => by simp [List.mem_cons, hyne y hy])
          rw [hf1, hf2]
        · have hgt : keyLt b0 a0 = true := by
            rcases keyLt_cases a0 b0 with h1 | h1 | h1
            · exact absurd h1 he
            · exact absurd h1 hlt
            · exact h1
          have hd : cmps a0 b0 = 1 := by rw [cmps, if_neg he, if_neg hlt]
          have hstep : diff_sorted_lists (a0 :: as) (b0 :: bs) =
              ((diff_sorted_lists (a0 :: as) bs).1,
                b0 :: (diff_sorted_lists (a0 :: as) bs).2) := by
            simp [diff_sorted_lists, diffInner, hd]
          rw [hstep, ihb hbs]
          have hall : ∀ x ∈ a0 :: as, keyLt b0 x = true := by
            intro x hx
            rcases List.mem_cons.mp hx with h1 | h1
            · rw [h1]; exact hgt
            · exact keyLt_trans hgt (ha0 x h1)
          have hnm : b0 ∉ a0 :: as := not_mem_of_lt_all hall
          have hxne : ∀ x ∈ a0 :: as, x ≠ b0 := by
            intro x hx hxe
            have h2 := hall x hx
            rw [hxe, keyLt_irrefl] at h2
            cases h2
          have hf1 : (a0 :: as).filter (fun x => ! decide (x ∈ b0 :: bs)) =
              (a0 :: as).filter (fun x => ! decide (x ∈ bs)) :=
            List.filter_congr (fun x hx => by simp [List.mem_cons, hxne x hx])
          have hf2 : (b0 :: bs).filter (fun y => ! decide (y ∈ a0 :: as)) =
              b0 :: bs.filter (fun y => ! decide (y ∈ a0 :: as)) :=
            List.filter_cons_of_pos (by simp [hnm])
          rw [hf1, hf2]

/-- C4: on ascending-sorted duplicate-free lists, `diff_sorted_lists` returns
exactly the elements of each side absent from the other, in input order (so
each output is itself ascending-sorted), and an element common to both lists
is emitted to neither output. -/
theorem diff_sorted_lists_spec (a b : List Key) (ha : Ascending a) (hb : Ascending b) :
    diff_sorted_lists a b =
      (a.filter (fun x => ! decide (x ∈ b)), b.filter (fun x => ! decide (x ∈ a))) ∧
    Ascending (diff_sorted_lists a b).1 ∧ Ascending (diff_sorted_lists a b).2 ∧
    (∀ x, x ∈ a → x ∈ b →
      x ∉ (diff_sorted_lists a b).1 ∧ x ∉ (diff_sorted_lists a b).2) := by
  have hmain := diff_eq_filter a b ha hb
  refine ⟨hmain, ?_, ?_, ?_⟩
  · rw [hmain]
    exact List.Pairwise.sublist (List.filter_sublist a) ha
  · rw [hmain]
    exact List.Pairwise.sublist (List.filter_sublist b) hb
  · intro x hxa hxb
    rw [hmain]
    constructor
    · intro hm
      have h2 := (List.mem_filter.mp hm).2
      simp [hxb] at h2
    · intro hm
      have h2 := (List.mem_filter.mp hm).2
      simp [hxa] at h2

/-- Closed instance of `diff_sorted_lists_spec` on two small sorted lists. -/
theorem diff_sorted_lists_spec_witness :
    diff_sorted_lists ["10.0.0.0/24".data, "10.0.1.0/24".data]
        ["10.0.1.0/24".data, "10.0.2.0/24".data] =
      (([ "10.0.0.0/24".data, "10.0.1.0/24".data ] : List Key).filter
          (fun x => ! decide (x ∈ (["10.0.1.0/24".data, "10.0.2.0/24".data] : List Key))),
        ([ "10.0.1.0/24".data, "10.0.2.0/24".data ] : List Key).filter
          (fun x => ! decide (x ∈ (["10.0.0.0/24".data, "10.0.1.0/24".data] : List Key)))) :=
  (diff_sorted_lists_spec _ _ (by unfold Ascending; decide)
    (by unfold Ascending; decide)).1

theorem msToSecTrunc_mul_le {d : ℤ} (h : 0 < msToSecTrunc d) :
    msToSecTrunc d * 1000 ≤ d := by
  unfold msToSecTrunc at h ⊢
  split at h
  · next h0 =>
    rw [if_pos h0]
    omega
  · next h0 => omega

theorem sub_loop_spec (t_end : ℤ) (wakes : List Wake) :
    ∀ (now : ℤ) (adds deletes : List Key) (trace : List SubStep) (out : SubUpd),
    sub_loop t_end now wakes adds deletes trace = .ok out →
    ∃ ns : List SubStep,
      out.trace = trace ++ ns ∧
      (∀ s ∈ ns, s.waitSecs = msToSecTrunc (t_end - s.tcall) ∧ 0 < s.waitSecs) ∧
      msToSecTrunc (t_end - out.endTime) ≤ 0 ∧
      ((∀ s ∈ ns, s.elapsedMs ≤ s.waitSecs * 1000) → now ≤ t_end →
        out.endTime ≤ t_end) := by
  induction wakes with
  | nil =>
    intro now adds deletes trace out h
    by_cases hw : 0 < msToSecTrunc (t_end - now)
    · simp only [sub_loop] at h
      rw [if_pos hw] at h
      injection h with h2
      subst h2
      refine ⟨[⟨msToSecTrunc (t_end - now), now, msToSecTrunc (t_end - now) * 1000⟩],
        rfl, ?_, ?_, ?_⟩
      · intro s hs
        rw [List.mem_singleton] at hs
        subst hs
        exact ⟨rfl, hw⟩
      · exact sub_loop_timeout_exits t_end now hw
      · intro _ _
        have h2 := msToSecTrunc_mul_le hw
        show now + msToSecTrunc (t_end - now) * 1000 ≤ t_end
        omega
    · simp only [sub_loop] at h
      rw [if_neg hw] at h
      injection h with h2
      subst h2
      refine ⟨[], by simp, by simp, ?_, fun _ hnow => hnow⟩
      show msToSecTrunc (t_end - now) ≤ 0
      omega
  | cons w ws ih =>
    intro now adds deletes trace out h
    by_cases hw : 0 < msToSecTrunc (t_end - now)
    · simp only [sub_loop] at h
      rw [if_pos hw] at h
      cases hpe : process_events w.events adds deletes with
      | error e =>
        rw [hpe] at h
        exact Except.noConfusion h
      | ok pr =>
        obtain ⟨a2, d2⟩ := pr
        rw [hpe] at h
        obtain ⟨ns2, htr, hprop, hend, hbound⟩ :=
          ih (now + w.elapsedMs) a2 d2
            (trace ++ [⟨msToSecTrunc (t_end - now), now, w.elapsedMs⟩]) out h
        refine ⟨⟨msToSecTrunc (t_end - now), now, w.elapsedMs⟩ :: ns2, ?_, ?_, hend, ?_⟩
        · rw [htr]
          simp
        · intro s hs
          rcases List.mem_cons.mp hs with h1 | h1
          · subst h1
            exact ⟨rfl, hw⟩
          · exact hprop s h1
        · intro hsel hnow
          apply hbound (fun s hs => hsel s (List.mem_cons_of_mem _ hs))
          have h1 : w.elapsedMs ≤ msToSecTrunc (t_end - now) * 1000 :=
            hsel _ (List.mem_cons_self _ _)
          have h2 := msToSecTrunc_mul_le hw
          omega
    · simp only [sub_loop] at h
      rw [if_neg hw] at h
      injection h with h2
      subst h2
      refine ⟨[], by simp, by simp, ?_, fun _ hnow => hnow⟩
      show msToSecTrunc (t_end - now) ≤ 0
      omega

/-- C5: for every sequence of wake-ups the collection loop terminates (it is a
total function of the wake-up list); provided each `select` call consumes at
most the timeout it was passed, the loop blocks for at most the configured
window in total (`endTime - now ≤ SUBSCRIBE_WAIT_SECS` seconds); every
`select` call is passed the freshly recomputed truncated remaining time until
the absolute deadline, which is still positive — and the loop exits exactly
when the recomputed remaining time is no longer positive. -/
theorem get_subscribe_updates_timing (now : ℤ) (wakes : List Wake) (r : SubUpd)
    (hr : get_subscribe_updates now wakes = .ok r)
    (hsel : ∀ s ∈ r.trace, s.elapsedMs ≤ s.waitSecs * 1000) :
    r.endTime - now ≤ SUBSCRIBE_WAIT_SECS * 1000 ∧
    (∀ s ∈ r.trace,
      s.waitSecs = msToSecTrunc ((now + SUBSCRIBE_WAIT_SECS * 1000) - s.tcall) ∧
      0 < s.waitSecs) ∧
    msToSecTrunc ((now + SUBSCRIBE_WAIT_SECS * 1000) - r.endTime) ≤ 0 := by
  unfold get_subscribe_updates at hr
  cases hsub : sub_loop (now + SUBSCRIBE_WAIT_SECS * 1000) now wakes [] [] [] with
  | error e =>
    rw [hsub] at hr
    exact Except.noConfusion hr
  | ok r0 =>
    rw [hsub] at hr
    injection hr with h2
    subst h2
    obtain ⟨ns, htr, hprop, hend, hbound⟩ :=
      sub_loop_spec (now + SUBSCRIBE_WAIT_SECS * 1000) wakes now [] [] [] r0 hsub
    rw [List.nil_append] at htr
    have hsel0 : ∀ s ∈ ns, s.elapsedMs ≤ s.waitSecs * 1000 := by
      intro s hs
      have hs2 : s ∈ r0.trace := by rw [htr]; exact hs
      exact hsel s hs2
    have hb := hbound hsel0 (by unfold SUBSCRIBE_WAIT_SECS; omega)
    refine ⟨?_, ?_, ?_⟩
    · show r0.endTime - now ≤ SUBSCRIBE_WAIT_SECS * 1000
      omega
    · intro s hs
      have hs2 : s ∈ r0.trace := hs
      rw [htr] at hs2
      exact hprop s hs2
    · show msToSecTrunc ((now + SUBSCRIBE_WAIT_SECS * 1000) - r0.endTime) ≤ 0
      exact hend

/-- Closed instance of `get_subscribe_updates_timing`: a run with a single
wake-up after half a second, whose recorded trace satisfies the select
contract. -/
theorem get_subscribe_updates_timing_witness :
    ∃ r : SubUpd, get_subscribe_updates 0 [⟨500, []⟩] = .ok r ∧
      r.endTime - 0 ≤ SUBSCRIBE_WAIT_SECS * 1000 ∧
      msToSecTrunc ((0 + SUBSCRIBE_WAIT_SECS * 1000) - r.endTime) ≤ 0 := by
  refine ⟨⟨[], [], [⟨1, 0, 500⟩], 500⟩, rfl, ?_⟩
  have h := get_subscribe_updates_timing 0 [⟨500, []⟩] ⟨[], [], [⟨1, 0, 500⟩], 500⟩
    (by rfl) (by decide)
  exact ⟨h.1, h.2.2⟩
